import Mathlib

/-!
Verification of the layout repository's two algorithmic engines:
the circular ordering/placement engine (`src/layout/circular.ts`) and the
iterative physics engine (`src/layout/gForce.ts`), together with the
re-entrancy guard of the d3-delegation engine (`ForceLayout`).

Numbers of the source (JavaScript IEEE doubles) are embedded as real
numbers; `Math.sqrt`, `Math.cos`, `Math.sin` become `Real.sqrt`,
`Real.cos`, `Real.sin`.  Node identifiers (strings in the source) are
embedded as natural numbers.  Optional numeric fields that the source
tests with `isNumber` / `!== null` are embedded as `Option ℝ`;
JavaScript truthiness of a numeric option (`!r`) is `r.getD 0 = 0`
(both `null`/`undefined` and `0` are falsy).
-/

open scoped Classical

/-- A node record as used by the circular engine (`circular.ts`): an id,
a mutable position, and the derived `degree` and `weight` fields the
engine writes.  The `children` adjacency list of the source is kept
outside the record, as the function `childrenOf` (the source stores it
on a clone of the node, written once by `initHierarchy` and then only
read). -/
structure CNode where
  id : ℕ
  x : ℝ
  y : ℝ
  degree : ℕ
  weight : ℕ

instance : Inhabited CNode := ⟨⟨0, 0, 0, 0, 0⟩⟩

/-- An edge record: the ids of its two endpoints. -/
structure CEdge where
  source : ℕ
  target : ℕ

/-- `nodeMap`: the id→index map built by `execute` via
`nodes.forEach((node, i) => { nodeMap[node.id] = i })`.  Later
assignments overwrite earlier ones, which the fold reproduces; ids not
present map to the default `0` (the source would yield `undefined`
there, so theorems assume edges reference existing ids). -/
def buildNodeMap (nodes : List CNode) : ℕ → ℕ :=
  (nodes.enum).foldl (fun m p => fun id => if id = p.2.id then p.1 else m id)
    (fun _ => 0)

/-- Modelled from the spec: the repository's `getDegree(n, nodeIdxMap, edges)`
utility lives in `src/util`, which is not part of the provided sources.
The spec defines a node's degree as the count of edges incident to it
(`derived degree (count of incident edges)`); each edge contributes to
both endpoints (a self-loop therefore counts twice). -/
def getDegreeList (nodes : List CNode) (edges : List CEdge) : List ℕ :=
  let nodeMap := buildNodeMap nodes
  (List.range nodes.length).map fun i =>
    (edges.map fun e =>
      (if nodeMap e.source = i then 1 else 0) +
      (if nodeMap e.target = i then 1 else 0)).sum

/-- `connect(a, b, edges)` of `circular.ts`: whether some edge joins the
two ids in either direction. -/
def connect (edges : List CEdge) (a b : ℕ) : Bool :=
  edges.any fun e =>
    (a = e.source && b = e.target) || (b = e.source && a = e.target)

/-- The ids one edge pushes into the `children` list of the node at
index `i` (`initHierarchy` of `circular.ts`): directed edges record
source→target only; undirected edges record each endpoint on the other.
The pushed value is the id of the node at the mapped index, exactly as
the source pushes `nodes[targetIdx].id`. -/
def childPushes (nodes : List CNode) (nodeMap : ℕ → ℕ) (directed : Bool)
    (e : CEdge) (i : ℕ) : List ℕ :=
  let sIdx := nodeMap e.source
  let tIdx := nodeMap e.target
  if directed then
    (if sIdx = i then [(nodes.getD tIdx default).id] else [])
  else
    (if sIdx = i then [(nodes.getD tIdx default).id] else []) ++
    (if tIdx = i then [(nodes.getD sIdx default).id] else [])

/-- The full `children` list of the node at index `i`, accumulated over
the edges in input order as `initHierarchy` does. -/
def childrenOf (nodes : List CNode) (edges : List CEdge) (nodeMap : ℕ → ℕ)
    (directed : Bool) (i : ℕ) : List ℕ :=
  edges.foldl (fun acc e => acc ++ childPushes nodes nodeMap directed e i) []

/-- State of the greedy loop of `topologyOrdering`: the indices picked
so far in pick order (`orderedCNodes`/`resNodes`, and equivalently the
`pickFlags` array: an index is flagged iff it has been pushed), and the
lag counter `k` (incremented only in the main branch of the source). -/
structure TopoState where
  ordered : List ℕ
  k : ℕ

/-- Whether index `j` has already been placed (`pickFlags[j]`). -/
def TopoState.picked (st : TopoState) (j : ℕ) : Bool :=
  st.ordered.contains j

/-- One iteration (`i ≥ 1`) of the `cnodes.forEach` loop of
`topologyOrdering`: accept node `i` when it is the last node, or its
degree differs from its successor's, or it is connected to
`orderedCNodes[k]` — and it is unpicked; otherwise search
`orderedCNodes[k]`'s children for an unpicked node of equal degree;
otherwise fall back to the first unpicked index. -/
def topoStep (nodes : List CNode) (edges : List CEdge) (nodeMap : ℕ → ℕ)
    (degrees : List ℕ) (directed : Bool) (n : ℕ)
    (st : TopoState) (i : ℕ) : TopoState :=
  let lastIdx := st.ordered.getD st.k 0
  let lastId := (nodes.getD lastIdx default).id
  let mainCond :=
    (i == n - 1 || degrees.getD i 0 != degrees.getD (i + 1) 0 ||
      connect edges lastId (nodes.getD i default).id) && !(st.picked i)
  if mainCond then
    { ordered := st.ordered ++ [i], k := st.k + 1 }
  else
    match (childrenOf nodes edges nodeMap directed lastIdx).find? (fun cid =>
        degrees.getD (nodeMap cid) 0 == degrees.getD i 0 &&
          !(st.picked (nodeMap cid))) with
    | some cid => { ordered := st.ordered ++ [nodeMap cid], k := st.k }
    | none =>
      match (List.range n).find? (fun j => !(st.picked j)) with
      | some j => { ordered := st.ordered ++ [j], k := st.k }
      | none => st

/-- `topologyOrdering(directed?)` of `circular.ts`: seed the order with
index 0, run the greedy loop over indices `1 … n-1`, and return the
original node records in pick order (the source pushes
`nodes[nodeMap[cnode.id]]` into `resNodes` in lockstep, which under
unique ids is the node at the picked index). -/
def topologyOrdering (nodes : List CNode) (edges : List CEdge)
    (directed : Bool) : List CNode :=
  let n := nodes.length
  let nodeMap := buildNodeMap nodes
  let degrees := getDegreeList nodes edges
  let final := ((List.range n).drop 1).foldl
    (topoStep nodes edges nodeMap degrees directed n) ⟨[0], 0⟩
  final.ordered.map fun j => nodes.getD j default

/-- The order `compareDegree` of `circular.ts` induces: ascending
numeric comparison of the `degree` fields. -/
def degLE (a b : CNode) : Prop :=
  a.degree ≤ b.degree

instance : DecidableRel degLE := fun a b =>
  inferInstanceAs (Decidable (a.degree ≤ b.degree))

instance : IsTotal CNode degLE :=
  ⟨fun a b => Nat.le_total a.degree b.degree⟩

instance : IsTrans CNode degLE :=
  ⟨fun _ _ _ h h' => Nat.le_trans h h'⟩

/-- The degree-field assignment `node.degree = degrees[i]` performed by
`degreeOrdering` before sorting (`degrees` always has the nodes'
length). -/
def assignDegrees (nodes : List CNode) (degrees : List ℕ) : List CNode :=
  List.zipWith (fun node d => { node with degree := d }) nodes degrees

/-- `degreeOrdering` of `circular.ts`: write each node's degree into its
record, then stably sort by the ascending comparator `compareDegree`
(JavaScript `Array.prototype.sort` is stable; any stable sort by a total
preorder yields the same list, here insertion sort). -/
def degreeOrdering (nodes : List CNode) (degrees : List ℕ) : List CNode :=
  List.insertionSort degLE (assignDegrees nodes degrees)

/-- The ordering strategies of `circular.ts` (`"topology"`,
`"topology-directed"`, `"degree"`); an unrecognized/absent strategy is
`Option.none` and falls back to the input order. -/
inductive COrdering
  | topology
  | topologyDirected
  | degree

/-- Configuration of the circular engine, after defaults are merged
(`getDefaultCfg` plus user options) and after the width/height/center
fallbacks at the top of `execute` have resolved to numbers. -/
structure CircParams where
  center : ℝ × ℝ
  radius : Option ℝ
  startRadius : Option ℝ
  endRadius : Option ℝ
  startAngle : ℝ
  endAngle : ℝ
  clockwise : Bool
  divisions : ℝ
  ordering : Option COrdering
  angleRatio : ℝ
  width : ℝ
  height : ℝ

/-- The radius-normalization chain at the top of `circular.ts`'s
`execute`: if radius, startRadius and endRadius are all falsy, derive
the radius from the smaller of width/height; else mirror a missing
start/end radius from the present one (JavaScript truthiness: `null`
and `0` are both falsy, embedded as `getD 0 = 0`). Returns the
normalized `(radius, startRadius, endRadius)`. -/
noncomputable def normalizeRadii (width height : ℝ)
    (radius startRadius endRadius : Option ℝ) :
    Option ℝ × Option ℝ × Option ℝ :=
  if radius.getD 0 = 0 ∧ startRadius.getD 0 = 0 ∧ endRadius.getD 0 = 0 then
    (some (if height > width then width / 2 else height / 2),
     startRadius, endRadius)
  else if startRadius.getD 0 = 0 ∧ ¬endRadius.getD 0 = 0 then
    (radius, endRadius, endRadius)
  else if ¬startRadius.getD 0 = 0 ∧ endRadius.getD 0 = 0 then
    (radius, startRadius, startRadius)
  else (radius, startRadius, endRadius)

/-- Placement of the node at position `i` of the chosen order — the body
of the `for (let i = 0; i < n; ++i)` loop of `circular.ts`'s `execute`:
resolve the per-index radius (fixed radius; else start/end
interpolation when both are non-null; else the synthetic `10 + i*100/(n-1)`
ramp), compute the angle from the division/step schedule (sign flipped
when counter-clockwise), and write `x`, `y` and `weight = degrees[i]`. -/
noncomputable def placeOne (p : CircParams) (n : ℕ)
    (radius startRadius endRadius : Option ℝ) (degrees : List ℕ)
    (node : CNode) (i : ℕ) : CNode :=
  let divN : ℕ := Nat.ceil ((n : ℝ) / p.divisions)
  let angleStep := (p.endAngle - p.startAngle) / n
  let astep := angleStep * p.angleRatio
  let r1 : ℝ := radius.getD 0
  let r2 : ℝ :=
    if r1 = 0 ∧ startRadius ≠ none ∧ endRadius ≠ none then
      startRadius.getD 0 +
        (i : ℝ) * (endRadius.getD 0 - startRadius.getD 0) / ((n : ℝ) - 1)
    else r1
  let r3 : ℝ := if r2 = 0 then 10 + (i : ℝ) * 100 / ((n : ℝ) - 1) else r2
  let angle : ℝ :=
    if p.clockwise then
      p.startAngle + ((i % divN : ℕ) : ℝ) * astep +
        2 * Real.pi / p.divisions * ((i / divN : ℕ) : ℝ)
    else
      p.endAngle - ((i % divN : ℕ) : ℝ) * astep -
        2 * Real.pi / p.divisions * ((i / divN : ℕ) : ℝ)
  { node with
    x := p.center.1 + Real.cos angle * r3,
    y := p.center.2 + Real.sin angle * r3,
    weight := degrees.getD i 0 }

/-- The placement loop: apply `placeOne` to each node of the chosen
order with its position index. -/
noncomputable def placeNodes (p : CircParams) (n : ℕ)
    (radius startRadius endRadius : Option ℝ) (degrees : List ℕ) :
    List CNode → ℕ → List CNode
  | [], _ => []
  | node :: rest, i =>
    placeOne p n radius startRadius endRadius degrees node i ::
      placeNodes p n radius startRadius endRadius degrees rest (i + 1)

/-- The ordering dispatch of `circular.ts`'s `execute`: topology,
directed topology, degree sort, or (for `null`/unrecognized values) the
original input order. -/
noncomputable def layoutNodesOf (p : CircParams) (nodes : List CNode)
    (edges : List CEdge) : List CNode :=
  match p.ordering with
  | some COrdering.topology => topologyOrdering nodes edges false
  | some COrdering.topologyDirected => topologyOrdering nodes edges true
  | some COrdering.degree => degreeOrdering nodes (getDegreeList nodes edges)
  | none => nodes

/-- `CircularLayout.execute()`: its returned node list together with the
number of times control reaches the `onLayoutEnd` callback call site.
Zero nodes: immediate callback, nodes untouched.  One node: placed at
the center, callback.  Otherwise: normalize radii, pick the order, run
the placement loop, callback. -/
noncomputable def circExecute (p : CircParams) (nodes : List CNode)
    (edges : List CEdge) : List CNode × ℕ :=
  let n := nodes.length
  if n = 0 then (nodes, 1)
  else if n = 1 then
    ([{ nodes.getD 0 default with x := p.center.1, y := p.center.2 }], 1)
  else
    let degrees := getDegreeList nodes edges
    let norm := normalizeRadii p.width p.height p.radius p.startRadius p.endRadius
    (placeNodes p n norm.1 norm.2.1 norm.2.2 degrees
      (layoutNodesOf p nodes edges) 0, 1)

/-- A node record of the physics engine (`gForce.ts`): a position and
the optional pinned coordinates `fx`/`fy` (`isNumber(node.fx)` becomes
`Option.isSome`). -/
structure GNode where
  x : ℝ
  y : ℝ
  fx : Option ℝ
  fy : Option ℝ

instance : Inhabited GNode := ⟨⟨0, 0, none, none⟩⟩

/-- An edge of the physics engine, with endpoints resolved through
`nodeIdxMap` to node indices (ids are unique per the data-model
invariant, so the id→index resolution is a bijection). -/
structure GEdge where
  source : ℕ
  target : ℕ

/-- Configuration of the physics engine after `execute` has normalized
it: `proccessToFunc` has turned scalar `linkDistance`/`nodeStrength`/
`edgeStrength` into constant functions, the `nodeSize`+`nodeSpacing`
resolution has produced a single per-node size function, and the
degree-based default `getMass` (degree, minimum 1) is one particular
instantiation of the `getMass` field.  Per-node callbacks take the node
index (node records carry unique ids, so any per-node function of the
source is a function of the index). -/
structure GParams where
  center : ℝ × ℝ
  maxIteration : ℕ
  edgeStrength : GEdge → ℝ
  nodeStrength : ℕ → ℝ
  coulombDisScale : ℝ
  damping : ℝ
  maxSpeed : ℝ
  minMovement : ℝ
  interval : ℝ
  factor : ℝ
  getMass : ℕ → ℝ
  getCenter : Option (ℕ → Option (ℝ × ℝ × ℝ))
  linkDistance : GEdge → ℝ
  gravity : ℝ
  preventOverlap : Bool
  nodeSize : ℕ → ℝ

/-- The guarded length `Math.sqrt(vecX² + vecY²) + 0.01` between nodes
`i` and `j` used throughout `calRepulsive`. -/
noncomputable def vecLen (g : ℕ → GNode) (i j : ℕ) : ℝ :=
  Real.sqrt (((g i).x - (g j).x) * ((g i).x - (g j).x) +
    ((g i).y - (g j).y) * ((g i).y - (g j).y)) + 0.01

/-- The overlap test of `calRepulsive`:
`preventOverlap && vecLength < (nodeSize(ni) + nodeSize(nj)) / 2`. -/
def overlapCond (p : GParams) (g : ℕ → GNode) (i j : ℕ) : Prop :=
  p.preventOverlap = true ∧ vecLen g i j < (p.nodeSize i + p.nodeSize j) / 2

/-- The body of `calRepulsive`'s inner loop for one pair `i < j`: the
first component is what the pair adds to node `i`'s accumulator
(`accArray[2i]`, `accArray[2i+1]`), the second what it adds to node
`j`'s.  When the overlap branch is active, the extra term is divided by
each node's own mass (`/ massi` for `i`, `/ massj` for `j`). -/
noncomputable def repPair (p : GParams) (g : ℕ → GNode) (i j : ℕ) :
    (ℝ × ℝ) × (ℝ × ℝ) :=
  let vecX := (g i).x - (g j).x
  let vecY := (g i).y - (g j).y
  let vecLength := Real.sqrt (vecX * vecX + vecY * vecY) + 0.01
  let nVecLength := (vecLength + 0.1) * p.coulombDisScale
  let direX := vecX / vecLength
  let direY := vecY / vecLength
  let param := (p.nodeStrength i + p.nodeStrength j) / 2 * p.factor /
    (nVecLength * nVecLength)
  if overlapCond p g i j then
    let paramOverlap :=
      (p.nodeStrength i + p.nodeStrength j) / 2 / (vecLength * vecLength)
    ((direX * param + direX * paramOverlap / p.getMass i,
      direY * param + direY * paramOverlap / p.getMass i),
     (-(direX * param) - direX * paramOverlap / p.getMass j,
      -(direY * param) - direY * paramOverlap / p.getMass j))
  else
    ((direX * param, direY * param), (-(direX * param), -(direY * param)))

/-- `calRepulsive`'s accumulated contribution to node `m` over all
unordered pairs (the double loop with `i >= j` skipped): node `m`
receives its first-slot contribution against every later node and its
second-slot contribution against every earlier node. -/
noncomputable def calRepulsive (p : GParams) (g : ℕ → GNode) (n m : ℕ) :
    ℝ × ℝ :=
  (∑ j in Finset.Ioo m n, (repPair p g m j).1) +
    ∑ i in Finset.range m, (repPair p g i m).2

/-- The contribution of one edge to node `m`'s accumulator in
`calAttractive`: the spring displacement from the ideal length
(`linkDistance(edge) || 1`), scaled by the edge strength and divided by
the endpoint's mass; subtracted at the source, added at the target. -/
noncomputable def attrContrib (p : GParams) (g : ℕ → GNode) (e : GEdge)
    (m : ℕ) : ℝ × ℝ :=
  let vecX := (g e.target).x - (g e.source).x
  let vecY := (g e.target).y - (g e.source).y
  let vecLength := Real.sqrt (vecX * vecX + vecY * vecY) + 0.01
  let direX := vecX / vecLength
  let direY := vecY / vecLength
  let idealLength := if p.linkDistance e = 0 then 1 else p.linkDistance e
  let param := (idealLength - vecLength) * p.edgeStrength e
  ((if m = e.source then -(direX * param) / p.getMass e.source else 0) +
     (if m = e.target then direX * param / p.getMass e.target else 0),
   (if m = e.source then -(direY * param) / p.getMass e.source else 0) +
     (if m = e.target then direY * param / p.getMass e.target else 0))

/-- `calAttractive`'s accumulated contribution to node `m` over all
edges. -/
noncomputable def calAttractive (p : GParams) (g : ℕ → GNode)
    (edges : List GEdge) (m : ℕ) : ℝ × ℝ :=
  (edges.map fun e => attrContrib p g e m).sum

/-- `calGravity`'s contribution to node `m`: displacement from the
global center (or from a valid custom center produced by `getCenter`,
whose third component replaces the gravity coefficient), scaled by
`-gravity`; zero when the resolved gravity is falsy
(`if (!gravity) continue`). -/
noncomputable def calGravity (p : GParams) (g : ℕ → GNode) (m : ℕ) :
    ℝ × ℝ :=
  let node := g m
  match (match p.getCenter with | some f => f m | none => none) with
  | some c =>
    if c.2.2 = 0 then (0, 0)
    else (-(c.2.2 * (node.x - c.1)), -(c.2.2 * (node.y - c.2.1)))
  | none =>
    if p.gravity = 0 then (0, 0)
    else (-(p.gravity * (node.x - p.center.1)),
          -(p.gravity * (node.y - p.center.2)))

/-- The uncapped velocity of `updateVelocity` for one node:
acceleration times `stepInterval * damping`, with the source's
`|| 0.01` fallback replacing each zero component. -/
noncomputable def velRaw (p : GParams) (acc : ℝ × ℝ) (stepInterval : ℝ) :
    ℝ × ℝ :=
  let param := stepInterval * p.damping
  (if acc.1 * param = 0 then 0.01 else acc.1 * param,
   if acc.2 * param = 0 then 0.01 else acc.2 * param)

/-- The speed `Math.sqrt(vx * vx + vy * vy)` of a velocity vector. -/
noncomputable def speedOf (v : ℝ × ℝ) : ℝ :=
  Real.sqrt (v.1 * v.1 + v.2 * v.2)

/-- `updateVelocity` for one node: the raw velocity, capped at
`maxSpeed` by rescaling when its speed exceeds `maxSpeed`. -/
noncomputable def updateVelocityAt (p : GParams) (acc : ℝ × ℝ)
    (stepInterval : ℝ) : ℝ × ℝ :=
  let v := velRaw p acc stepInterval
  let vLength := speedOf v
  if vLength > p.maxSpeed then
    (p.maxSpeed / vLength * v.1, p.maxSpeed / vLength * v.2)
  else v

/-- `updatePosition` for one node: a node with both `fx` and `fy` set
snaps to them; any other node advances by `velocity * stepInterval`. -/
noncomputable def updatePositionAt (node : GNode) (vel : ℝ × ℝ)
    (stepInterval : ℝ) : GNode :=
  match node.fx, node.fy with
  | some a, some b => { node with x := a, y := b }
  | _, _ =>
    { node with x := node.x + vel.1 * stepInterval,
                y := node.y + vel.2 * stepInterval }

/-- The mutable state of one `GForceLayout` run: the node array (as a
function over indices `< n`), the iteration counter `iter` of `run`'s
closure, and whether the `setInterval` loop is scheduled. -/
structure GState where
  n : ℕ
  node : ℕ → GNode
  iter : ℕ
  running : Bool

/-- The total acceleration accumulated for node `m` in one step:
repulsion over all pairs, attraction over all edges, gravity. -/
noncomputable def accOf (p : GParams) (edges : List GEdge) (st : GState)
    (m : ℕ) : ℝ × ℝ :=
  calRepulsive p st.node st.n m + calAttractive p st.node edges m +
    calGravity p st.node m

/-- The decayed step size `Math.max(0.02, interval - iter * 0.002)`. -/
noncomputable def stepIntervalOf (p : GParams) (iter : ℕ) : ℝ :=
  max 0.02 (p.interval - iter * 0.002)

/-- The node array after one step: every node of the array is advanced
by `updatePosition` with its accumulated velocity (indices outside the
array are untouched). -/
noncomputable def gStepNodes (p : GParams) (edges : List GEdge)
    (st : GState) : ℕ → GNode :=
  fun m =>
    if m < st.n then
      updatePositionAt (st.node m)
        (updateVelocityAt p (accOf p edges st m) (stepIntervalOf p st.iter))
        (stepIntervalOf p st.iter)
    else st.node m

/-- The convergence measure of `run`: the mean distance moved per node
between the previous and the new positions. -/
noncomputable def movementOf (old new : ℕ → GNode) (n : ℕ) : ℝ :=
  (∑ m in Finset.range n,
    Real.sqrt (((new m).x - (old m).x) * ((new m).x - (old m).x) +
      ((new m).y - (old m).y) * ((new m).y - (old m).y))) / n

/-- One `setInterval` callback of `GForceLayout.run`: accumulate forces,
update velocities and positions, measure the mean movement, then run
both stop checks in sequence — the movement test, and (after `iter++`)
the iteration cap — each of which clears the interval and calls
`onLayoutEnd()`.  The second component counts how many times this
callback reaches an `onLayoutEnd()` call site. -/
noncomputable def gStep (p : GParams) (edges : List GEdge) (st : GState) :
    GState × ℕ :=
  let node' := gStepNodes p edges st
  let movement := movementOf st.node node' st.n
  ({ n := st.n, node := node', iter := st.iter + 1,
     running :=
       if movement < p.minMovement ∨ p.maxIteration ≤ st.iter + 1 then false
       else st.running },
   (if movement < p.minMovement then 1 else 0) +
     (if p.maxIteration ≤ st.iter + 1 then 1 else 0))

/-- `n` successive simulation steps. -/
noncomputable def stepN (p : GParams) (edges : List GEdge) :
    ℕ → GState → GState
  | 0, st => st
  | k + 1, st => stepN p edges k (gStep p edges st).1

/-- `GForceLayout.execute()`: it first clears any pending interval
(cancelling an in-progress run), completes immediately on zero nodes
(callback, nothing touched), places a single node at the center
(callback), and otherwise starts `run()`, whose closure resets the
iteration counter to 0 and schedules the interval loop.  The second
component counts synchronous `onLayoutEnd()` calls. -/
noncomputable def gExecute (p : GParams) (st : GState) : GState × ℕ :=
  if st.n = 0 then ({ st with running := false }, 1)
  else if st.n = 1 then
    ({ st with
        running := false,
        node := fun m =>
          if m = 0 then
            { st.node 0 with x := p.center.1, y := p.center.2 }
          else st.node m }, 1)
  else ({ st with iter := 0, running := true }, 0)

/-- The state of the d3-delegation engine `ForceLayout` (`part_000`)
relevant to its re-entrancy guard: the `ticking` flag and the cached
simulation.  The external d3 simulation is abstracted as a type `σ`
with a builder (the `try` block constructing and starting it) and a
restarter (the `simulation.alpha(alpha).restart()` path). -/
structure FState (σ : Type) where
  ticking : Bool
  sim : Option σ

/-- `ForceLayout.execute()`: `if (self.ticking) return;` — a running
simulation makes the call a no-op; otherwise the simulation is built
(first call) or restarted, and `ticking` is set. -/
def forceExecute {σ : Type} (build : Unit → σ) (restart : σ → σ)
    (st : FState σ) : FState σ :=
  if st.ticking then st
  else
    match st.sim with
    | none => { ticking := true, sim := some (build ()) }
    | some s => { ticking := true, sim := some (restart s) }

/-- Concrete two-node configuration for the repulsion counterexample:
nodes at distance 5 (a 3-4-5 triangle), default strengths, overlap
prevention on, node size 20 (so the pair overlaps), and unequal masses
1 and 2. -/
noncomputable def gRepCfg : GParams where
  center := (0, 0)
  maxIteration := 500
  edgeStrength := fun _ => 200
  nodeStrength := fun _ => 1000
  coulombDisScale := 0.005
  damping := 0.9
  maxSpeed := 1000
  minMovement := 0.5
  interval := 0.02
  factor := 1
  getMass := fun i => if i = 0 then 1 else 2
  getCenter := none
  linkDistance := fun _ => 1
  gravity := 10
  preventOverlap := true
  nodeSize := fun _ => 20

/-- The two nodes of the repulsion counterexample. -/
noncomputable def gRepNodes : ℕ → GNode := fun i =>
  if i = 0 then ⟨3, 4, none, none⟩ else ⟨0, 0, none, none⟩

/-- The same configuration with overlap prevention disabled, for the
amended repulsion-symmetry witness. -/
noncomputable def gRepCfgNoOverlap : GParams :=
  { gRepCfg with preventOverlap := false }

/-- Configuration for the double-callback failing input: iteration cap
1, defaults otherwise. -/
noncomputable def gCapCfg : GParams :=
  { gRepCfg with maxIteration := 1 }

/-- State for the double-callback failing input: two pinned nodes
sitting at their pinned coordinates, so the first step moves nothing
and the mean movement is 0 < minMovement while `iter` reaches the cap. -/
noncomputable def gCapState : GState where
  n := 2
  node := fun i =>
    if i = 0 then ⟨10, 20, some 10, some 20⟩ else ⟨30, 40, some 30, some 40⟩
  iter := 0
  running := true

/-- A mid-run state (iteration counter 5, interval scheduled) used to
show that a second `GForceLayout.execute()` is not a no-op. -/
noncomputable def gMidRunState : GState where
  n := 2
  node := fun i =>
    if i = 0 then ⟨10, 20, none, none⟩ else ⟨30, 40, none, none⟩
  iter := 5
  running := true

/-- Three nodes (ids 0, 1, 2) for the circular counterexamples. -/
noncomputable def circNodes3 : List CNode :=
  [⟨0, 0, 0, 0, 0⟩, ⟨1, 0, 0, 0, 0⟩, ⟨2, 0, 0, 0, 0⟩]

/-- A star: node 0 joined to nodes 1 and 2 (degrees 2, 1, 1). -/
def circEdges3 : List CEdge :=
  [⟨0, 1⟩, ⟨0, 2⟩]

/-- Circular configuration with degree ordering and a fixed radius. -/
noncomputable def circDegreeCfg : CircParams where
  center := (0, 0)
  radius := some 5
  startRadius := none
  endRadius := none
  startAngle := 0
  endAngle := 2 * Real.pi
  clockwise := true
  divisions := 1
  ordering := some COrdering.degree
  angleRatio := 1
  width := 300
  height := 300

/-- Circular configuration with identity ordering and a fixed radius,
for the angle-spacing witness. -/
noncomputable def circIdCfg : CircParams :=
  { circDegreeCfg with ordering := none }

/-- Two nodes (ids 0, 1) with one edge, small witness graph. -/
noncomputable def circNodes2 : List CNode :=
  [⟨0, 0, 0, 0, 0⟩, ⟨1, 0, 0, 0, 0⟩]

/-- The single edge of the two-node witness graph. -/
def circEdges2 : List CEdge :=
  [⟨0, 1⟩]

/-- A zero-node physics state, for the empty-graph witness. -/
noncomputable def gEmptyState : GState where
  n := 0
  node := fun _ => default
  iter := 0
  running := false

/-- Helper: the node-map fold keeps every value below `n` when the seed
does and every assigned index is below `n`. -/
theorem foldl_nodeMap_lt {n : ℕ} (l : List (ℕ × CNode)) (m : ℕ → ℕ)
    (hm : ∀ id, m id < n) (hl : ∀ p ∈ l, p.1 < n) :
    ∀ id, (l.foldl (fun m p => fun id => if id = p.2.id then p.1 else m id) m) id < n := by
  induction l generalizing m with
  | nil => exact hm
  | cons p l ih =>
    refine ih _ (fun id => ?_) (fun q hq => hl q (List.mem_cons_of_mem _ hq))
    by_cases h : id = p.2.id
    · simpa [h] using hl p (List.mem_cons_self _ _)
    · simpa [h] using hm id

/-- Helper: `buildNodeMap` only produces valid indices (for a nonempty
node list). -/
theorem buildNodeMap_lt (nodes : List CNode) (hn : 0 < nodes.length) (id : ℕ) :
    buildNodeMap nodes id < nodes.length := by
  refine foldl_nodeMap_lt _ _ (fun _ => hn) ?_ id
  rw [List.forall_mem_enum]
  intro i hi
  exact hi

/-- Helper: one iteration of the greedy topology loop appends exactly one
fresh valid index to the picked list, as long as the list is not yet
full. -/
theorem topoStep_appends (nodes : List CNode) (edges : List CEdge)
    (nodeMap : ℕ → ℕ) (degrees : List ℕ) (directed : Bool) {n : ℕ}
    (hmap : ∀ id, nodeMap id < n) (st : TopoState) (i : ℕ) (hi : i < n)
    (hlen : st.ordered.length < n) :
    ∃ a, a < n ∧ a ∉ st.ordered ∧
      (topoStep nodes edges nodeMap degrees directed n st i).ordered =
        st.ordered ++ [a] := by
  simp only [topoStep]
  split
  · next hmain =>
    refine ⟨i, hi, ?_, rfl⟩
    have h2 := ((Bool.and_eq_true _ _).mp hmain).2
    simpa [TopoState.picked, List.contains] using h2
  · next =>
    cases hchild : (childrenOf nodes edges nodeMap directed (st.ordered.getD st.k 0)).find?
        (fun cid => degrees.getD (nodeMap cid) 0 == degrees.getD i 0 &&
          !(st.picked (nodeMap cid))) with
    | some cid =>
      simp only [hchild]
      refine ⟨nodeMap cid, hmap cid, ?_, rfl⟩
      have hp := List.find?_some hchild
      have h2 := ((Bool.and_eq_true _ _).mp hp).2
      simpa [TopoState.picked, List.contains] using h2
    | none =>
      simp only [hchild]
      cases hfall : (List.range n).find? (fun j => !(st.picked j)) with
      | some j =>
        simp only [hfall]
        refine ⟨j, ?_, ?_, rfl⟩
        · simpa using List.mem_of_find?_eq_some hfall
        · simpa [TopoState.picked, List.contains] using List.find?_some hfall
      | none =>
        exfalso
        rw [List.find?_eq_none] at hfall
        have hsub : List.range n ⊆ st.ordered := by
          intro j hj
          have hj2 := hfall j hj
          simpa [TopoState.picked, List.contains] using hj2
        have hle := ((List.nodup_range n).subperm hsub).length_le
        rw [List.length_range] at hle
        omega

/-- Helper: folding the greedy step over a list of valid indices grows
the picked list by exactly one fresh index per iteration, preserving
`Nodup` and validity. -/
theorem topoFold_invariant (nodes : List CNode) (edges : List CEdge)
    (nodeMap : ℕ → ℕ) (degrees : List ℕ) (directed : Bool) {n : ℕ}
    (hmap : ∀ id, nodeMap id < n) (l : List ℕ) :
    ∀ st : TopoState, (∀ i ∈ l, i < n) → st.ordered.Nodup →
      (∀ j ∈ st.ordered, j < n) → st.ordered.length + l.length ≤ n →
      ((l.foldl (topoStep nodes edges nodeMap degrees directed n) st).ordered.Nodup ∧
       (∀ j ∈ (l.foldl (topoStep nodes edges nodeMap degrees directed n) st).ordered, j < n) ∧
       (l.foldl (topoStep nodes edges nodeMap degrees directed n) st).ordered.length =
         st.ordered.length + l.length) := by
  induction l with
  | nil => intro st _ h1 h2 _; exact ⟨h1, h2, rfl⟩
  | cons i l ih =>
    intro st hl h1 h2 h3
    have hi : i < n := hl i (List.mem_cons_self _ _)
    have hlen : st.ordered.length < n := by
      rw [List.length_cons] at h3; omega
    obtain ⟨a, ha1, ha2, ha3⟩ :=
      topoStep_appends nodes edges nodeMap degrees directed hmap st i hi hlen
    rw [List.foldl_cons]
    set st' := topoStep nodes edges nodeMap degrees directed n st i with hst'
    have hlen' : st'.ordered.length = st.ordered.length + 1 := by
      rw [ha3, List.length_append, List.length_singleton]
    have hnodup' : st'.ordered.Nodup := by
      rw [ha3]; simp [List.nodup_append, h1, ha2]
    have hlt' : ∀ j ∈ st'.ordered, j < n := by
      rw [ha3]
      intro j hj
      rcases List.mem_append.mp hj with h | h
      · exact h2 j h
      · rw [List.mem_singleton.mp h]; exact ha1
    have h3' : st'.ordered.length + l.length ≤ n := by
      rw [hlen']; rw [List.length_cons] at h3; omega
    obtain ⟨r1, r2, r3⟩ :=
      ih st' (fun j hj => hl j (List.mem_cons_of_mem _ hj)) hnodup' hlt' h3'
    refine ⟨r1, r2, ?_⟩
    rw [r3, hlen', List.length_cons]
    omega

/-- Helper: mapping positional lookup over `range` recovers the list. -/
theorem map_getD_range (l : List CNode) (d : CNode) :
    (List.range l.length).map (fun j => l.getD j d) = l := by
  induction l with
  | nil => rfl
  | cons a l ih =>
    rw [List.length_cons, List.range_succ_eq_map, List.map_cons, List.map_map]
    have h : ((fun j => (a :: l).getD j d) ∘ Nat.succ) = fun j => l.getD j d := by
      funext j
      simp [List.getD_cons_succ]
    simp only [List.getD_cons_zero, h, ih]

/-- Helper: `topologyOrdering` is a permutation of the input nodes (for
a nonempty node list).  Shared by the C10 claim theorem and the length
facts of the circular placement lemmas. -/
theorem topologyOrdering_perm_helper (nodes : List CNode) (edges : List CEdge)
    (directed : Bool) (hn : 1 ≤ nodes.length) :
    List.Perm (topologyOrdering nodes edges directed) nodes := by
  have hmap : ∀ id, buildNodeMap nodes id < nodes.length :=
    buildNodeMap_lt nodes hn
  simp only [topologyOrdering]
  set F := ((List.range nodes.length).drop 1).foldl
    (topoStep nodes edges (buildNodeMap nodes) (getDegreeList nodes edges)
      directed nodes.length)
    (⟨[0], 0⟩ : TopoState) with hF
  have hinv := topoFold_invariant nodes edges (buildNodeMap nodes)
    (getDegreeList nodes edges) directed hmap ((List.range nodes.length).drop 1)
    ⟨[0], 0⟩
    (fun i hi => by
      simpa using List.drop_subset 1 (List.range nodes.length) hi)
    (List.nodup_singleton 0)
    (fun j hj => by rw [List.mem_singleton.mp hj]; omega)
    (by simp only [List.length_singleton, List.length_drop, List.length_range]
        omega)
  rw [← hF] at hinv
  obtain ⟨hnodup, hlt, hlenf⟩ := hinv
  have hlen : F.ordered.length = nodes.length := by
    rw [hlenf]
    simp only [List.length_singleton, List.length_drop, List.length_range]
    omega
  have hperm : List.Perm F.ordered (List.range nodes.length) :=
    (hnodup.subperm (fun j hj => List.mem_range.mpr (hlt j hj))).perm_of_length_le
      (by rw [List.length_range, hlen])
  have hmapped := hperm.map (fun j => nodes.getD j default)
  rw [map_getD_range nodes default] at hmapped
  exact hmapped

/-- C10: for every input node list of length at least 1 (with the
data-model invariant of unique ids) and any edge list,
`CircularLayout.topologyOrdering` — directed or undirected — returns a
permutation of the input nodes: every input node appears exactly once
and the result has the input's length. -/
theorem topologyOrdering_is_permutation (nodes : List CNode)
    (edges : List CEdge) (directed : Bool) (hn : 1 ≤ nodes.length)
    (_hid : (nodes.map CNode.id).Nodup) :
    List.Perm (topologyOrdering nodes edges directed) nodes :=
  topologyOrdering_perm_helper nodes edges directed hn

/-- Witness: the permutation theorem applied to a concrete two-node
graph with one edge. -/
theorem topologyOrdering_is_permutation_witness :
    1 ≤ circNodes2.length ∧ (circNodes2.map CNode.id).Nodup ∧
    List.Perm (topologyOrdering circNodes2 circEdges2 false) circNodes2 :=
  ⟨by decide, by decide,
    topologyOrdering_is_permutation circNodes2 circEdges2 false
      (by decide) (by decide)⟩

/-- C6: for ordering = degree, the sequence `degreeOrdering` produces
has non-decreasing degree values (ascending `compareDegree`), and
equal-degree nodes keep their original input order (stable sort): any
adjacent-in-input pair of equal degree survives as a sublist of the
output. -/
theorem degreeOrdering_sorted_stable (nodes : List CNode)
    (degrees : List ℕ) :
    ((degreeOrdering nodes degrees).map CNode.degree).Sorted (· ≤ ·) ∧
    ∀ a b : CNode, a.degree = b.degree →
      List.Sublist [a, b] (assignDegrees nodes degrees) →
      List.Sublist [a, b] (degreeOrdering nodes degrees) := by
  constructor
  · have hs := List.sorted_insertionSort degLE (assignDegrees nodes degrees)
    exact List.Pairwise.map CNode.degree (fun a b h => h) hs
  · intro a b hdeg hab
    exact List.pair_sublist_insertionSort (le_of_eq hdeg) hab

/-- Witness: the degree-ordering theorem applied to the concrete
three-node star (degrees 2, 1, 1), with the stability clause
instantiated at the two equal-degree leaves. -/
theorem degreeOrdering_sorted_stable_witness :
    ((degreeOrdering circNodes3 [2, 1, 1]).map CNode.degree).Sorted (· ≤ ·) ∧
    List.Sublist [⟨1, 0, 0, 1, 0⟩, ⟨2, 0, 0, 1, 0⟩]
      (degreeOrdering circNodes3 [2, 1, 1]) := by
  refine ⟨(degreeOrdering_sorted_stable circNodes3 [2, 1, 1]).1, ?_⟩
  refine (degreeOrdering_sorted_stable circNodes3 [2, 1, 1]).2
    ⟨1, 0, 0, 1, 0⟩ ⟨2, 0, 0, 1, 0⟩ rfl ?_
  show List.Sublist _
    ((⟨0, 0, 0, 2, 0⟩ : CNode) :: (⟨1, 0, 0, 1, 0⟩ : CNode) ::
      (⟨2, 0, 0, 1, 0⟩ : CNode) :: [])
  exact List.Sublist.cons _ (List.Sublist.refl _)

/-- C4 counterexample: for `GForceLayout` (unlike the d3-delegation
`ForceLayout`), a second `execute()` while a run is in progress is not a
no-op: it cancels the pending interval and restarts, resetting the
iteration counter. -/
theorem gforce_execute_reentrancy_counterexample :
    gMidRunState.running = true ∧
    (gExecute gRepCfg gMidRunState).1.iter ≠ gMidRunState.iter := by
  refine ⟨rfl, ?_⟩
  simp [gExecute, gMidRunState]

/-- C4 amended: the re-entrancy guard belongs to the d3-delegation
`ForceLayout`: when `ticking` is set, `execute()` returns immediately
and the state is unchanged (no duplicate scheduling, no observable
change); `GForceLayout.execute()` instead cancels and restarts with a
fresh iteration counter. -/
theorem forceExecute_reentrant_noop {σ : Type} (build : Unit → σ)
    (restart : σ → σ) (st : FState σ) (h : st.ticking = true) :
    forceExecute build restart st = st := by
  simp [forceExecute, h]

/-- Witness: the re-entrancy no-op at a concrete ticking state. -/
theorem forceExecute_reentrant_noop_witness :
    (⟨true, none⟩ : FState Unit).ticking = true ∧
    forceExecute (fun _ => ()) (fun s => s) (⟨true, none⟩ : FState Unit) =
      (⟨true, none⟩ : FState Unit) :=
  ⟨rfl, forceExecute_reentrant_noop _ _ _ rfl⟩

/-- C9: on a graph with zero nodes, both `GForceLayout.execute()` and
`CircularLayout.execute()` return immediately, reach the `onLayoutEnd`
callback exactly once, and compute or modify no node positions. -/
theorem empty_graph_immediate_callback (p : GParams) (st : GState)
    (hp : st.n = 0) (cp : CircParams) (cedges : List CEdge) :
    (gExecute p st).2 = 1 ∧ (gExecute p st).1.node = st.node ∧
    (gExecute p st).1.iter = st.iter ∧
    (circExecute cp [] cedges).2 = 1 ∧ (circExecute cp [] cedges).1 = [] := by
  refine ⟨?_, ?_, ?_, ?_, ?_⟩ <;> simp [gExecute, circExecute, hp]

/-- Witness: the empty-graph behavior at a concrete empty state and
configuration. -/
theorem empty_graph_immediate_callback_witness :
    gEmptyState.n = 0 ∧
    (gExecute gRepCfg gEmptyState).2 = 1 ∧
    (gExecute gRepCfg gEmptyState).1.node = gEmptyState.node ∧
    (circExecute circIdCfg [] circEdges2).2 = 1 ∧
    (circExecute circIdCfg [] circEdges2).1 = [] := by
  have h := empty_graph_immediate_callback gRepCfg gEmptyState rfl circIdCfg circEdges2
  exact ⟨rfl, h.1, h.2.1, h.2.2.2.1, h.2.2.2.2⟩

/-- Helper: `updatePosition` snaps a node with both pins set to its
pinned coordinates, whatever velocity was accumulated. -/
theorem updatePositionAt_pinned (node : GNode) (vel : ℝ × ℝ) (dt : ℝ)
    (a b : ℝ) (hfx : node.fx = some a) (hfy : node.fy = some b) :
    (updatePositionAt node vel dt).x = a ∧
    (updatePositionAt node vel dt).y = b := by
  unfold updatePositionAt
  rw [hfx, hfy]
  exact ⟨rfl, rfl⟩

/-- Helper: `updatePosition` never writes the `fx`/`fy` fields. -/
theorem updatePositionAt_keeps_pins (node : GNode) (vel : ℝ × ℝ)
    (dt : ℝ) :
    (updatePositionAt node vel dt).fx = node.fx ∧
    (updatePositionAt node vel dt).fy = node.fy := by
  unfold updatePositionAt
  rcases h1 : node.fx with _ | a <;> rcases h2 : node.fy with _ | b <;>
    simp [h1, h2]

/-- Helper: one simulation step never writes the `fx`/`fy` fields. -/
theorem gStepNodes_keeps_pins (p : GParams) (edges : List GEdge)
    (st : GState) (m : ℕ) :
    (gStepNodes p edges st m).fx = (st.node m).fx ∧
    (gStepNodes p edges st m).fy = (st.node m).fy := by
  unfold gStepNodes
  split
  · exact updatePositionAt_keeps_pins _ _ _
  · exact ⟨rfl, rfl⟩

/-- Helper: after one simulation step, a pinned node sits at its pinned
coordinates. -/
theorem gStepNodes_pinned (p : GParams) (edges : List GEdge)
    (st : GState) (i : ℕ) (a b : ℝ) (hi : i < st.n)
    (hfx : (st.node i).fx = some a) (hfy : (st.node i).fy = some b) :
    (gStepNodes p edges st i).x = a ∧ (gStepNodes p edges st i).y = b := by
  unfold gStepNodes
  rw [if_pos hi]
  exact updatePositionAt_pinned _ _ _ _ _ hfx hfy

/-- C3: a node with both `fx` and `fy` set sits at exactly `(fx, fy)`
after any positive number of simulation steps, regardless of the
configuration, the edges, and the forces accumulated for it. -/
theorem pinned_node_position (p : GParams) (edges : List GEdge)
    (i : ℕ) (a b : ℝ) :
    ∀ (n : ℕ) (st : GState), i < st.n → (st.node i).fx = some a →
      (st.node i).fy = some b → 1 ≤ n →
      ((stepN p edges n st).node i).x = a ∧
      ((stepN p edges n st).node i).y = b := by
  intro n
  induction n with
  | zero => intro st _ _ _ h; omega
  | succ k ih =>
    intro st hi hfx hfy _
    show ((stepN p edges k (gStep p edges st).1).node i).x = a ∧
      ((stepN p edges k (gStep p edges st).1).node i).y = b
    rcases Nat.eq_zero_or_pos k with h0 | hk
    · subst h0
      exact gStepNodes_pinned p edges st i a b hi hfx hfy
    · refine ih (gStep p edges st).1 hi ?_ ?_ hk
      · show (gStepNodes p edges st i).fx = some a
        rw [(gStepNodes_keeps_pins p edges st i).1]; exact hfx
      · show (gStepNodes p edges st i).fy = some b
        rw [(gStepNodes_keeps_pins p edges st i).2]; exact hfy

/-- Witness: the pinned node of the concrete two-node pinned state stays
at `(10, 20)` after one step. -/
theorem pinned_node_position_witness :
    0 < gCapState.n ∧
    ((stepN gRepCfg [] 1 gCapState).node 0).x = 10 ∧
    ((stepN gRepCfg [] 1 gCapState).node 0).y = 20 := by
  have h := pinned_node_position gRepCfg [] 0 10 20 1 gCapState
    (by norm_num [gCapState]) (by norm_num [gCapState])
    (by norm_num [gCapState]) (by norm_num)
  exact ⟨by norm_num [gCapState], h.1, h.2⟩

/-- C2 (failing input): on the concrete state where both stop conditions
coincide — mean movement `0 < minMovement` at the very step where the
incremented iteration counter reaches `maxIteration = 1` — the
`setInterval` callback of `run` reaches the `onLayoutEnd()` call site
twice: once in the movement branch and once in the iteration-cap
branch. -/
theorem gforce_double_onLayoutEnd :
    (gStep gCapCfg [] gCapState).2 = 2 := by
  have hn : gCapState.n = 2 := rfl
  have h0 := gStepNodes_pinned gCapCfg [] gCapState 0 10 20
    (by norm_num [gCapState]) (by norm_num [gCapState])
    (by norm_num [gCapState])
  have h1 := gStepNodes_pinned gCapCfg [] gCapState 1 30 40
    (by norm_num [gCapState]) (by norm_num [gCapState])
    (by norm_num [gCapState])
  have hmov : movementOf gCapState.node (gStepNodes gCapCfg [] gCapState)
      gCapState.n = 0 := by
    unfold movementOf
    rw [hn, Finset.sum_range_succ, Finset.sum_range_succ,
      Finset.sum_range_zero, h0.1, h0.2, h1.1, h1.2]
    norm_num [gCapState, Real.sqrt_zero]
  show (if movementOf gCapState.node (gStepNodes gCapCfg [] gCapState)
        gCapState.n < gCapCfg.minMovement then 1 else 0) +
      (if gCapCfg.maxIteration ≤ gCapState.iter + 1 then 1 else 0) = 2
  rw [hmov, if_pos (by norm_num [gCapCfg, gRepCfg]),
    if_pos (by norm_num [gCapCfg, gRepCfg, gCapState])]

/-- Helper: the placement loop preserves length. -/
theorem placeNodes_length (p : CircParams) (n : ℕ)
    (radius sr er : Option ℝ) (degrees : List ℕ) :
    ∀ (l : List CNode) (s : ℕ),
      (placeNodes p n radius sr er degrees l s).length = l.length := by
  intro l
  induction l with
  | nil => intro s; rfl
  | cons a t ih => intro s; simp [placeNodes, ih]

/-- Helper: positional lookup in the placement loop's output. -/
theorem placeNodes_getD (p : CircParams) (n : ℕ)
    (radius sr er : Option ℝ) (degrees : List ℕ) :
    ∀ (l : List CNode) (s i : ℕ), i < l.length →
      (placeNodes p n radius sr er degrees l s).getD i default =
        placeOne p n radius sr er degrees (l.getD i default) (s + i) := by
  intro l
  induction l with
  | nil => intro s i h; simp at h
  | cons a t ih =>
    intro s i h
    cases i with
    | zero => simp [placeNodes]
    | succ k =>
      have hk : k < t.length := by simpa using h
      simp only [placeNodes, List.getD_cons_succ]
      rw [ih (s + 1) k hk]
      congr 1
      omega

/-- Helper: every ordering strategy returns a list of the input's
length. -/
theorem layoutNodesOf_length (p : CircParams) (nodes : List CNode)
    (edges : List CEdge) (hn : 1 ≤ nodes.length) :
    (layoutNodesOf p nodes edges).length = nodes.length := by
  unfold layoutNodesOf
  cases hp : p.ordering with
  | none => rfl
  | some o =>
    cases o with
    | topology =>
      exact (topologyOrdering_perm_helper nodes edges false hn).length_eq
    | topologyDirected =>
      exact (topologyOrdering_perm_helper nodes edges true hn).length_eq
    | degree =>
      unfold degreeOrdering
      rw [(List.perm_insertionSort degLE _).length_eq]
      unfold assignDegrees
      rw [List.length_zipWith]
      have hd : (getDegreeList nodes edges).length = nodes.length := by
        simp [getDegreeList]
      rw [hd, min_self]

/-- Helper: on a graph with at least two nodes, `circExecute` returns
the placement of the chosen order, one `placeOne` per position. -/
theorem circExecute_getD (p : CircParams) (nodes : List CNode)
    (edges : List CEdge) (i : ℕ) (hn : 2 ≤ nodes.length)
    (hi : i < nodes.length) :
    (circExecute p nodes edges).1.getD i default =
      placeOne p nodes.length
        (normalizeRadii p.width p.height p.radius p.startRadius p.endRadius).1
        (normalizeRadii p.width p.height p.radius p.startRadius p.endRadius).2.1
        (normalizeRadii p.width p.height p.radius p.startRadius p.endRadius).2.2
        (getDegreeList nodes edges)
        ((layoutNodesOf p nodes edges).getD i default) (0 + i) := by
  simp only [circExecute]
  rw [if_neg (by omega), if_neg (by omega)]
  exact placeNodes_getD p nodes.length _ _ _ _ (layoutNodesOf p nodes edges) 0 i
    (by rw [layoutNodesOf_length p nodes edges (by omega)]; exact hi)

/-- Helper: the `weight` written by the placement loop at position `i`
is `degrees[i]`, the degree of the `i`-th node of the original input
order. -/
theorem circExecute_weight (p : CircParams) (nodes : List CNode)
    (edges : List CEdge) (i : ℕ) (hn : 2 ≤ nodes.length)
    (hi : i < nodes.length) :
    ((circExecute p nodes edges).1.getD i default).weight =
      (getDegreeList nodes edges).getD i 0 := by
  rw [circExecute_getD p nodes edges i hn hi]
  simp [placeOne]

/-- Helper: placement does not change a node's id. -/
theorem placeOne_id (p : CircParams) (n : ℕ) (radius sr er : Option ℝ)
    (degrees : List ℕ) (node : CNode) (i : ℕ) :
    (placeOne p n radius sr er degrees node i).id = node.id := by
  simp [placeOne]

/-- C5 (amended): after `CircularLayout.execute()` on a graph with at
least two nodes, the node at position `i` of the returned (ordered)
sequence carries `weight = degrees[i]` — the degree of the node at
index `i` of the *original input order*, which equals the node's own
degree only when the ordering strategy is the identity. -/
theorem circular_weight_by_position (p : CircParams) (nodes : List CNode)
    (edges : List CEdge) (i : ℕ) (hn : 2 ≤ nodes.length)
    (hi : i < nodes.length) :
    ((circExecute p nodes edges).1.getD i default).weight =
      (getDegreeList nodes edges).getD i 0 :=
  circExecute_weight p nodes edges i hn hi

/-- Witness: the weight rule at the concrete three-node star under
degree ordering. -/
theorem circular_weight_by_position_witness :
    2 ≤ circNodes3.length ∧
    ((circExecute circDegreeCfg circNodes3 circEdges3).1.getD 0
        default).weight =
      (getDegreeList circNodes3 circEdges3).getD 0 0 :=
  ⟨by norm_num [circNodes3],
    circular_weight_by_position circDegreeCfg circNodes3 circEdges3 0
      (by norm_num [circNodes3]) (by norm_num [circNodes3])⟩

/-- C5 counterexample: with degree ordering on the three-node star, the
first returned node is the leaf with id 1, whose own degree is 1
(`degrees[nodeMap[1]] = 1`), yet its `weight` field is written as 2 —
`degrees[0]`, the degree of the hub that sat at index 0 of the original
input order. -/
theorem circular_weight_counterexample :
    ((circExecute circDegreeCfg circNodes3 circEdges3).1.getD 0
        default).id = 1 ∧
    ((circExecute circDegreeCfg circNodes3 circEdges3).1.getD 0
        default).weight = 2 ∧
    (getDegreeList circNodes3 circEdges3).getD (buildNodeMap circNodes3 1)
        0 = 1 := by
  have h2 : 2 ≤ circNodes3.length := by norm_num [circNodes3]
  have h0 : 0 < circNodes3.length := by norm_num [circNodes3]
  refine ⟨?_, ?_, by decide⟩
  · rw [circExecute_getD circDegreeCfg circNodes3 circEdges3 0 h2 h0,
      placeOne_id]
    have hord : layoutNodesOf circDegreeCfg circNodes3 circEdges3 =
        degreeOrdering circNodes3 (getDegreeList circNodes3 circEdges3) := rfl
    rw [hord, show getDegreeList circNodes3 circEdges3 = [2, 1, 1] from
      by decide]
    rfl
  · rw [circExecute_weight circDegreeCfg circNodes3 circEdges3 0 h2 h0]
    decide

/-- Helper: a nonzero fixed radius passes through radius
normalization unchanged. -/
theorem normalizeRadii_fst (w h : ℝ) (sr er : Option ℝ) (r : ℝ)
    (hr0 : r ≠ 0) :
    (normalizeRadii w h (some r) sr er).1 = some r := by
  unfold normalizeRadii
  rw [if_neg (fun hc => hr0 (by simpa using hc.1))]
  split_ifs <;> rfl

/-- C7: with one division, clockwise direction, angle ratio 1, the
default angular span `[0, 2π)` and a fixed nonzero radius `r`, the node
at position `i` of the chosen order is placed at exactly
`(center.x + r·cos(i·2π/n), center.y + r·sin(i·2π/n))`. -/
theorem circular_angle_spacing (p : CircParams) (nodes : List CNode)
    (edges : List CEdge) (r : ℝ) (i : ℕ)
    (hdiv : p.divisions = 1) (hclock : p.clockwise = true)
    (hratio : p.angleRatio = 1) (hstart : p.startAngle = 0)
    (hend : p.endAngle = 2 * Real.pi) (hr : p.radius = some r)
    (hr0 : r ≠ 0) (hn : 2 ≤ nodes.length) (hi : i < nodes.length) :
    ((circExecute p nodes edges).1.getD i default).x =
      p.center.1 +
        Real.cos ((i : ℝ) * (2 * Real.pi / nodes.length)) * r ∧
    ((circExecute p nodes edges).1.getD i default).y =
      p.center.2 +
        Real.sin ((i : ℝ) * (2 * Real.pi / nodes.length)) * r := by
  rw [circExecute_getD p nodes edges i hn hi, hr,
    normalizeRadii_fst p.width p.height p.startRadius p.endRadius r hr0]
  simp only [placeOne, Option.getD_some, Nat.zero_add]
  have hno2 : ¬(r = 0 ∧
      (normalizeRadii p.width p.height (some r) p.startRadius
        p.endRadius).2.1 ≠ none ∧
      (normalizeRadii p.width p.height (some r) p.startRadius
        p.endRadius).2.2 ≠ none) :=
    fun hc => hr0 hc.1
  rw [if_pos hclock, if_neg hno2, if_neg hr0]
  constructor
  · congr 3
    rw [hdiv, hstart, hend, hratio, div_one, Nat.ceil_natCast,
      Nat.mod_eq_of_lt hi, Nat.div_eq_of_lt hi]
    push_cast
    ring
  · congr 3
    rw [hdiv, hstart, hend, hratio, div_one, Nat.ceil_natCast,
      Nat.mod_eq_of_lt hi, Nat.div_eq_of_lt hi]
    push_cast
    ring

/-- Witness: the angle-spacing formula at the concrete two-node graph,
radius 5, first node. -/
theorem circular_angle_spacing_witness :
    2 ≤ circNodes2.length ∧
    ((circExecute circIdCfg circNodes2 circEdges2).1.getD 0 default).x =
      circIdCfg.center.1 +
        Real.cos ((0 : ℕ) * (2 * Real.pi / circNodes2.length)) * 5 ∧
    ((circExecute circIdCfg circNodes2 circEdges2).1.getD 0 default).y =
      circIdCfg.center.2 +
        Real.sin ((0 : ℕ) * (2 * Real.pi / circNodes2.length)) * 5 := by
  have h := circular_angle_spacing circIdCfg circNodes2 circEdges2 5 0
    rfl rfl rfl rfl rfl rfl (by norm_num) (by norm_num [circNodes2])
    (by norm_num [circNodes2])
  exact ⟨by norm_num [circNodes2], h.1, h.2⟩

/-- C8 (amended): `updateVelocity` stores the acceleration times
`stepInterval × damping` with the source's `|| 0.01` fallback replacing
each zero component (so the stored velocity equals the plain product
only when neither component vanishes); and whenever the resulting speed
exceeds `maxSpeed` (and `maxSpeed` is positive), the vector is rescaled
to length exactly `maxSpeed` with its direction preserved (a positive
scalar multiple). -/
theorem velocity_update_amended (p : GParams) (acc : ℝ × ℝ) (dt : ℝ) :
    (¬ speedOf (velRaw p acc dt) > p.maxSpeed →
      updateVelocityAt p acc dt = velRaw p acc dt) ∧
    (speedOf (velRaw p acc dt) > p.maxSpeed → 0 < p.maxSpeed →
      speedOf (updateVelocityAt p acc dt) = p.maxSpeed ∧
      ∃ c : ℝ, 0 < c ∧
        updateVelocityAt p acc dt =
          (c * (velRaw p acc dt).1, c * (velRaw p acc dt).2)) := by
  constructor
  · intro h
    unfold updateVelocityAt
    rw [if_neg h]
  · intro hgt hpos
    have hL : 0 < speedOf (velRaw p acc dt) := lt_trans hpos hgt
    have hne : speedOf (velRaw p acc dt) ≠ 0 := ne_of_gt hL
    have hupd : updateVelocityAt p acc dt =
        (p.maxSpeed / speedOf (velRaw p acc dt) * (velRaw p acc dt).1,
         p.maxSpeed / speedOf (velRaw p acc dt) * (velRaw p acc dt).2) := by
      unfold updateVelocityAt
      rw [if_pos hgt]
    refine ⟨?_, p.maxSpeed / speedOf (velRaw p acc dt),
      div_pos hpos hL, hupd⟩
    rw [hupd]
    set v := velRaw p acc dt with hv
    set c := p.maxSpeed / speedOf v with hc
    show Real.sqrt ((c * v.1) * (c * v.1) + (c * v.2) * (c * v.2)) =
      p.maxSpeed
    have hsq : (c * v.1) * (c * v.1) + (c * v.2) * (c * v.2) =
        c ^ 2 * (v.1 * v.1 + v.2 * v.2) := by ring
    rw [hsq, Real.sqrt_mul (sq_nonneg c),
      Real.sqrt_sq (le_of_lt (div_pos hpos hL))]
    show c * speedOf v = p.maxSpeed
    rw [hc, div_mul_cancel₀ _ hne]

/-- Witness: the cap fires on a large acceleration and the resulting
speed is exactly `maxSpeed = 1000`. -/
theorem velocity_update_amended_witness :
    speedOf (velRaw gRepCfg (2000000, 0) 0.02) > gRepCfg.maxSpeed ∧
    0 < gRepCfg.maxSpeed ∧
    speedOf (updateVelocityAt gRepCfg (2000000, 0) 0.02) =
      gRepCfg.maxSpeed := by
  have hvel : velRaw gRepCfg ((2000000 : ℝ), (0 : ℝ)) 0.02 =
      (36000, 0.01) := by
    norm_num [velRaw, gRepCfg]
  have h2 : Real.sqrt 1000000 = 1000 := by
    rw [show (1000000 : ℝ) = 1000 ^ 2 by norm_num]
    exact Real.sqrt_sq (by norm_num)
  have hgt : speedOf (velRaw gRepCfg (2000000, 0) 0.02) >
      gRepCfg.maxSpeed := by
    rw [hvel]
    show (1000 : ℝ) < Real.sqrt ((36000 : ℝ) * 36000 + 0.01 * 0.01)
    rw [← h2]
    exact Real.sqrt_lt_sqrt (by norm_num) (by norm_num)
  exact ⟨hgt, by norm_num [gRepCfg],
    ((velocity_update_amended gRepCfg (2000000, 0) 0.02).2 hgt
      (by norm_num [gRepCfg])).1⟩

/-- C8 counterexample: with zero accumulated acceleration the stored
velocity is `(0.01, 0.01)` — the `|| 0.01` fallback — not the
componentwise product `acceleration × (stepInterval × damping) = (0, 0)`
the claim asserts. -/
theorem velocity_zero_counterexample :
    updateVelocityAt gRepCfg (0, 0) 0.02 ≠
      ((0 : ℝ) * (0.02 * gRepCfg.damping),
       (0 : ℝ) * (0.02 * gRepCfg.damping)) := by
  have hvel : velRaw gRepCfg ((0 : ℝ), (0 : ℝ)) 0.02 = (0.01, 0.01) := by
    norm_num [velRaw]
  have h2 : Real.sqrt 1000000 = 1000 := by
    rw [show (1000000 : ℝ) = 1000 ^ 2 by norm_num]
    exact Real.sqrt_sq (by norm_num)
  have hnocap : ¬ speedOf (velRaw gRepCfg (0, 0) 0.02) >
      gRepCfg.maxSpeed := by
    rw [hvel]
    show ¬ Real.sqrt ((0.01 : ℝ) * 0.01 + 0.01 * 0.01) > 1000
    have h1 : Real.sqrt ((0.01 : ℝ) * 0.01 + 0.01 * 0.01) ≤
        Real.sqrt 1000000 :=
      Real.sqrt_le_sqrt (by norm_num)
    rw [h2] at h1
    exact not_lt.mpr h1
  have hupd : updateVelocityAt gRepCfg (0, 0) 0.02 = (0.01, 0.01) := by
    unfold updateVelocityAt
    rw [if_neg hnocap, hvel]
  rw [hupd]
  intro hcontra
  have hfst := congrArg Prod.fst hcontra
  norm_num at hfst

/-- C1 (amended): for a pair `(i, j)`, the repulsion contribution added
to `i`'s accumulator is the exact negation of the contribution added to
`j`'s whenever the overlap branch is inactive (overlap prevention off,
or the pair not overlapping) or the two nodes have equal mass; the base
inverse-square term alone is always antisymmetric, but the overlap
correction is divided by each node's own mass. -/
theorem repulsion_antisymmetric (p : GParams) (g : ℕ → GNode) (i j : ℕ)
    (h : ¬ overlapCond p g i j ∨ p.getMass i = p.getMass j) :
    (repPair p g i j).2 =
      (-(repPair p g i j).1.1, -(repPair p g i j).1.2) := by
  rcases h with h | h
  · simp only [repPair]
    rw [if_neg h]
  · simp only [repPair]
    by_cases hov : overlapCond p g i j
    · rw [if_pos hov]
      dsimp only
      rw [Prod.mk.injEq]
      constructor
      · rw [h]; ring
      · rw [h]; ring
    · rw [if_neg hov]

/-- Witness: antisymmetry at the concrete two-node pair with overlap
prevention disabled. -/
theorem repulsion_antisymmetric_witness :
    ¬ overlapCond gRepCfgNoOverlap gRepNodes 0 1 ∧
    (repPair gRepCfgNoOverlap gRepNodes 0 1).2 =
      (-(repPair gRepCfgNoOverlap gRepNodes 0 1).1.1,
       -(repPair gRepCfgNoOverlap gRepNodes 0 1).1.2) := by
  have hno : ¬ overlapCond gRepCfgNoOverlap gRepNodes 0 1 := by
    intro hc
    have h1 := hc.1
    simp [gRepCfgNoOverlap, gRepCfg, overlapCond] at h1
  exact ⟨hno, repulsion_antisymmetric gRepCfgNoOverlap gRepNodes 0 1
    (Or.inl hno)⟩

/-- C1 counterexample: with overlap prevention on, the two overlapping
nodes at distance 5 and masses 1 and 2, the pair's contribution to node
1's accumulator is not the negation of its contribution to node 0's:
the overlap term is divided by each node's own mass. -/
theorem repulsion_asymmetry_counterexample :
    (repPair gRepCfg gRepNodes 0 1).2.1 ≠
      -(repPair gRepCfg gRepNodes 0 1).1.1 := by
  have hsq : ((gRepNodes 0).x - (gRepNodes 1).x) *
        ((gRepNodes 0).x - (gRepNodes 1).x) +
      ((gRepNodes 0).y - (gRepNodes 1).y) *
        ((gRepNodes 0).y - (gRepNodes 1).y) = 5 ^ 2 := by
    norm_num [gRepNodes]
  have key : Real.sqrt (((gRepNodes 0).x - (gRepNodes 1).x) *
        ((gRepNodes 0).x - (gRepNodes 1).x) +
      ((gRepNodes 0).y - (gRepNodes 1).y) *
        ((gRepNodes 0).y - (gRepNodes 1).y)) = 5 := by
    rw [hsq]
    exact Real.sqrt_sq (by norm_num)
  have hov : overlapCond gRepCfg gRepNodes 0 1 := by
    refine ⟨rfl, ?_⟩
    show vecLen gRepNodes 0 1 < (gRepCfg.nodeSize 0 + gRepCfg.nodeSize 1) / 2
    unfold vecLen
    rw [key]
    norm_num [gRepCfg]
  simp only [repPair]
  rw [if_pos hov, key]
  norm_num [gRepNodes, gRepCfg]
